import Mathlib

/-!
Verification of the operational core shared by the two Max-Cut clients of the
Quantum32 Hybrid Sampler repository (`pc_client_maxcut.py`, the console client,
called V1 below, and `pc_client_maxcutV2.py`, the dashboard client, called V2).

The embedding models Python floats as rationals (every float operation that
occurs here — literal decimals, sums of edge weights, comparisons — is exact),
Python ints as `ℤ`, and Python's insertion-ordered `dict` as an
insertion-ordered association list.
-/

namespace Quantum32

/-! ### Configuration constants (V1 lines 23-43, V2 lines 53-67) -/

/-- Number of reporting units ("slaves"); both clients use 4. -/
def NUM_SLAVES : ℕ := 4

/-- Bits reported by each unit per tick. -/
def BITS_PER_SLAVE : ℕ := 4

/-- Total bit width of an assembled sample (V2 line 59). -/
def N_BITS : ℕ := NUM_SLAVES * BITS_PER_SLAVE

/-- Fixed bias pushed in `@PARAM` (V2 line 63). -/
def PARAM_B : ℤ := 5

/-- Fixed coupling pushed in `@PARAM` (V2 line 64). -/
def PARAM_KP : ℤ := 60

/-- Fixed mode pushed in `@PARAM` (V2 line 65). -/
def PARAM_M : ℤ := 1

/-- Fixed stride of the dashboard's `@GET` (V2 line 66). -/
def BATCH_STRIDE : ℤ := 1

/-- Fixed burn-in of the dashboard's `@GET` (V2 line 67). -/
def BATCH_BURN : ℤ := 50

/-- `make_ring_edges` (V1 lines 65-66): ring graph with constant weight. -/
def make_ring_edges (n : ℕ) (w : ℚ) : List (ℕ × ℕ × ℚ) :=
  (List.range n).map (fun i => (i, (i + 1) % n, w))

/-- The Max-Cut instance both clients use: ring of `N_BITS` nodes with unit
weight (V1 `build_edges` with `GRAPH_TYPE = "ring"`, `RING_WEIGHT = 1.0`;
V2 line 60). -/
def EDGES : List (ℕ × ℕ × ℚ) := make_ring_edges N_BITS 1

/-! ### BitVector / Scoring engine (V1 lines 55-63, V2 lines 72-80) -/

/-- `bits_from_bmask` (V1 lines 55-56, V2 lines 72-73):
`np.array([(bmask >> i) & 1 for i in range(width)])`. Python's arithmetic
right shift followed by `& 1` is floor division by `2^i` followed by the
nonnegative remainder mod 2, which is what `Int.fdiv`/`Int.emod` compute. -/
def bits_from_bmask (bmask : ℤ) (width : ℕ := 4) : List ℤ :=
  (List.range width).map (fun i => (bmask.fdiv ((2 ^ i : ℕ) : ℤ)).emod 2)

/-- The loop of `maxcut_score` with its accumulator. A `none` result models the
`IndexError` numpy raises when an edge endpoint is out of range of `bits`. -/
def maxcut_go (bits : List ℤ) : List (ℕ × ℕ × ℚ) → ℚ → Option ℚ
  | [], score => some score
  | e :: rest, score =>
    match bits[e.1]?, bits[e.2.1]? with
    | some bi, some bj => maxcut_go bits rest (if bi ≠ bj then score + e.2.2 else score)
    | _, _ => none

/-- `maxcut_score` (V1 lines 58-63, V2 lines 75-80): starting from `0.0`, add
the weight of every edge whose endpoint bits differ. -/
def maxcut_score (bits : List ℤ) (edges : List (ℕ × ℕ × ℚ)) : Option ℚ :=
  maxcut_go bits edges 0

/-- Specification-side cut value: the summed weight of exactly those edges
whose two endpoint bits differ (out-of-range indices read as 0 here; the
theorems relate this to `maxcut_score` only under in-range hypotheses). -/
def cutWeight (bits : List ℤ) (edges : List (ℕ × ℕ × ℚ)) : ℚ :=
  ((edges.filter (fun e => decide (bits.getD e.1 0 ≠ bits.getD e.2.1 0))).map
    (fun e => e.2.2)).sum

/-! ### Field parsing (models of Python `int()` / `float()` and `str.split`) -/

/-- Digit-string accumulator: `none` as soon as a non-digit appears. -/
def parseNatDigits : List Char → ℕ → Option ℕ
  | [], acc => some acc
  | c :: rest, acc =>
    if c.isDigit then parseNatDigits rest (10 * acc + (c.toNat - 48)) else none

/-- Model of Python `int(str)` (applied to stream fields at V1 lines 209-214
and V2 lines 338-340): an optional sign followed by at least one decimal
digit. Surrounding whitespace and digit-group underscores are not modelled. -/
def pyInt : List Char → Option ℤ
  | [] => none
  | '-' :: rest =>
    if rest = [] then none else (parseNatDigits rest 0).map (fun n => -(n : ℤ))
  | '+' :: rest =>
    if rest = [] then none else (parseNatDigits rest 0).map (fun n => (n : ℤ))
  | cs => (parseNatDigits cs 0).map (fun n => (n : ℤ))

/-- `str.split(sep)` for a one-character separator, with Python's semantics
(`"".split(",") = [""]`, `",".split(",") = ["", ""]`). -/
def splitOnChar (sep : Char) : List Char → List (List Char)
  | [] => [[]]
  | c :: rest =>
    if c = sep then [] :: splitOnChar sep rest
    else
      match splitOnChar sep rest with
      | [] => [[c]]
      | p :: ps => (c :: p) :: ps

/-- `line.split(",")` (V1 line 204, V2 line 335). -/
def splitOnComma (cs : List Char) : List (List Char) := splitOnChar ',' cs

/-- Model of Python `float(str)` (applied to field 5 at V1 line 213),
restricted to optionally-signed decimal fixed-point literals; exponent forms,
`inf`/`nan` and whitespace are not modelled (the device stream emits
fixed-point forms). -/
def pyFloat (cs0 : List Char) : Option ℚ :=
  let fixed : List Char → Option ℚ := fun cs =>
    match splitOnChar '.' cs with
    | [ip] => if ip.isEmpty then none else (parseNatDigits ip 0).map (fun n => (n : ℚ))
    | [ip, fp] =>
      if ip.isEmpty && fp.isEmpty then none
      else if ip.all Char.isDigit && fp.all Char.isDigit then
        some ((((parseNatDigits ip 0).getD 0 : ℕ) : ℚ) +
          (((parseNatDigits fp 0).getD 0 : ℕ) : ℚ) / 10 ^ fp.length)
      else none
    | _ => none
  match cs0 with
  | [] => none
  | '-' :: rest => if rest = [] then none else (fixed rest).map (fun q => -q)
  | '+' :: rest => if rest = [] then none else fixed rest
  | cs => fixed cs

/-! ### The tick buffer (Python insertion-ordered dicts) -/

/-- Lookup in an insertion-ordered association list (Python `dict` access). -/
def alistGet? {α : Type} (k : ℤ) : List (ℤ × α) → Option α
  | [] => none
  | (k', v) :: rest => if k = k' then some v else alistGet? k rest

/-- `d[k] = v` on an insertion-ordered association list: overwrite in place if
the key is present, else append at the end (Python `dict` insertion order). -/
def alistSet {α : Type} (k : ℤ) (v : α) : List (ℤ × α) → List (ℤ × α)
  | [] => [(k, v)]
  | (k', v') :: rest =>
    if k = k' then (k, v) :: rest else (k', v') :: alistSet k v rest

/-- `tick_buffer`: tick id → (unit index → stored value). -/
abbrev TickBuffer (α : Type) : Type := List (ℤ × List (ℤ × α))

/-- `tick_buffer[tick][sidx] = v` with lazy creation of the per-tick dict
(V1 lines 218-221, V2 lines 342-344). -/
def bufferStore {α : Type} (buf : TickBuffer α) (tick sidx : ℤ) (v : α) :
    TickBuffer α :=
  alistSet tick (alistSet sidx v ((alistGet? tick buf).getD [])) buf

/-- The retention cleanup (V1 lines 255-257, V2 lines 371-373): when more than
50 ticks are tracked, pop every tick of `sorted(keys)[:-20]`, i.e. drop all but
the 20 largest tick ids, keeping the survivors in insertion order. -/
def evict {α : Type} (buf : TickBuffer α) : TickBuffer α :=
  if 50 < buf.length then
    let olds := (List.insertionSort (· ≤ ·) (buf.map Prod.fst)).take
      ((buf.map Prod.fst).length - 20)
    buf.filter (fun p => decide (p.1 ∉ olds))
  else buf

/-- The per-tick map holds a record for every unit index `0..NUM_SLAVES-1`. -/
def completeB {α : Type} (m : List (ℤ × α)) : Bool :=
  (List.range NUM_SLAVES).all (fun s => (alistGet? ((s : ℕ) : ℤ) m).isSome)

/-! ### Records, samples, and the two clients' aggregation steps -/

/-- A completed, scored sample (spec `CompletedSample`). -/
structure Sample where
  tick : ℤ
  score : ℚ
  bits : List ℤ
deriving DecidableEq

/-- Decoded data record of the console client (V1 lines 202-214):
`O,<tick>,<slaveIndex>,<bmask>,<loss>,<noise>,<seed>`. -/
structure PartialRecord where
  tick : ℤ
  sidx : ℤ
  bmask : ℤ
  loss : ℤ
  noise : ℚ
  seed : ℤ
deriving DecidableEq

/-- Decoded data record of the dashboard client (V2 lines 338-340): only tick,
slave index and bitmask are ever read from the line. -/
structure V2Record where
  tick : ℤ
  sidx : ℤ
  bmask : ℤ
deriving DecidableEq

/-- Best-result triple of the console client (V1 lines 169-171). -/
structure BestV1 where
  score : ℚ
  bits : Option (List ℤ)
  tick : Option ℤ
deriving DecidableEq

/-- Best-result update of the console client (V1 lines 245-248): a strictly
greater score replaces the best. -/
def v1_update_best (b : BestV1) (tick : ℤ) (score : ℚ) (bits : List ℤ) : BestV1 :=
  if score > b.score then ⟨score, some bits, some tick⟩ else b

instance : DecidableEq (List (ℤ × ℤ × ℤ × ℚ × ℤ)) := inferInstance

instance : DecidableEq (ℤ × List (ℤ × ℤ × ℤ × ℚ × ℤ)) := inferInstance

instance : DecidableEq (TickBuffer (ℤ × ℤ × ℚ × ℤ)) := inferInstance

/-- Receive-loop state of the console client (V1 lines 169-177): the tick
buffer stores `(bmask, loss, noise, seed)` per unit. -/
structure V1State where
  tick_buffer : TickBuffer (ℤ × ℤ × ℚ × ℤ)
  best : BestV1
deriving DecidableEq

/-- Initial console-client state: `best_score = -1e18`, empty buffer. -/
def v1_init : V1State := ⟨[], ⟨-1000000000000000000, none, none⟩⟩

/-- Vector assembly with the `break` on the first missing slave index
(V1 lines 229-234). -/
def v1_vec (m : List (ℤ × (ℤ × ℤ × ℚ × ℤ))) : List (List ℤ) :=
  ((List.range NUM_SLAVES).takeWhile
      (fun s => (alistGet? ((s : ℕ) : ℤ) m).isSome)).filterMap
    (fun s => (alistGet? ((s : ℕ) : ℤ) m).map
      (fun r => bits_from_bmask r.1 BITS_PER_SLAVE))

/-- One `O,` record through the console client's aggregation (V1 lines
218-257). Returns the new state and the sample scored by this record, if any.
The `none` arm of the score match is unreachable: assembled vectors have
width `N_BITS`, in range of every edge of `EDGES`. -/
def v1_process (st : V1State) (r : PartialRecord) : V1State × Option Sample :=
  let buf := bufferStore st.tick_buffer r.tick r.sidx (r.bmask, r.loss, r.noise, r.seed)
  let m := (alistGet? r.tick buf).getD []
  if NUM_SLAVES ≤ m.length then
    let vec := v1_vec m
    if vec.length = NUM_SLAVES then
      let bits := vec.flatten
      match maxcut_score bits EDGES with
      | some score =>
        (⟨evict buf, v1_update_best st.best r.tick score bits⟩, some ⟨r.tick, score, bits⟩)
      | none => (⟨buf, st.best⟩, none)
    else (⟨evict buf, st.best⟩, none)
  else (⟨buf, st.best⟩, none)

/-- Dashboard state relevant to aggregation and best-result tracking (V2
`__init__`/`on_clear`, lines 97-104 and 292-299; the GUI-plot history lists
`best_history_x`/`best_history_y` are omitted). -/
structure V2State where
  tick_buffer : TickBuffer ℤ
  all_scores : List ℚ
  all_samples : List Sample
  sample_count : ℕ
  best_score : ℚ
  best_bits : Option (List ℤ)
deriving DecidableEq

/-- Initial dashboard state: `best_score = 0`, no best bits, empty buffer. -/
def v2_init : V2State := ⟨[], [], [], 0, 0, none⟩

/-- Best-result update of the dashboard (V2 lines 360-362). -/
def v2_update_best (bs : ℚ) (bb : Option (List ℤ)) (score : ℚ) (bits : List ℤ) :
    ℚ × Option (List ℤ) :=
  if score > bs then (score, some bits) else (bs, bb)

/-- Vector assembly by list comprehension with a membership filter
(V2 lines 348-349); `bits_from_bmask` is called with its default width 4. -/
def v2_vec (m : List (ℤ × ℤ)) : List (List ℤ) :=
  (List.range NUM_SLAVES).filterMap
    (fun s => (alistGet? ((s : ℕ) : ℤ) m).map (fun bm => bits_from_bmask bm 4))

/-- One `O,` record through the dashboard's aggregation (V2 lines 342-373; the
annealing block at lines 375-384 is modelled separately by `anneal_step`).
The `none` score arm models the exception path swallowed by `except: pass`
and is unreachable for assembled vectors. -/
def v2_process (st : V2State) (r : V2Record) : V2State :=
  let buf := bufferStore st.tick_buffer r.tick r.sidx r.bmask
  let m := (alistGet? r.tick buf).getD []
  if NUM_SLAVES ≤ m.length then
    let vec := v2_vec m
    if vec.length = NUM_SLAVES then
      let bits := vec.flatten
      match maxcut_score bits EDGES with
      | some score =>
        { tick_buffer := evict buf,
          all_scores := st.all_scores ++ [score],
          all_samples := st.all_samples ++ [⟨r.tick, score, bits⟩],
          sample_count := st.sample_count + 1,
          best_score := (v2_update_best st.best_score st.best_bits score bits).1,
          best_bits := (v2_update_best st.best_score st.best_bits score bits).2 }
      | none => { st with tick_buffer := buf }
    else { st with tick_buffer := evict buf }
  else { st with tick_buffer := buf }

/-! ### Line decoding -/

/-- Decode an incoming line as a console-client data record (V1 lines 201-216):
`O,` prefix check, comma split, the `len(parts) < 7` guard, then all six field
parses; any failure discards the line. -/
def v1_decode (line : String) : Option PartialRecord :=
  let cs := line.data
  if cs.take 2 = ['O', ','] then
    let parts := splitOnComma cs
    if parts.length < 7 then none
    else
      match pyInt (parts.getD 1 []), pyInt (parts.getD 2 []), pyInt (parts.getD 3 []),
            pyInt (parts.getD 4 []), pyFloat (parts.getD 5 []), pyInt (parts.getD 6 []) with
      | some tick, some sidx, some bmask, some loss, some noise, some seed =>
        some ⟨tick, sidx, bmask, loss, noise, seed⟩
      | _, _, _, _, _, _ => none
  else none

/-- Decode an incoming line as a dashboard data record (V2 lines 334-340):
`O,` prefix, `len(parts) >= 7` guard, then only fields 1-3 are parsed. -/
def v2_decode (line : String) : Option V2Record :=
  let cs := line.data
  if cs.take 2 = ['O', ','] then
    let parts := splitOnComma cs
    if 7 ≤ parts.length then
      match pyInt (parts.getD 1 []), pyInt (parts.getD 2 []), pyInt (parts.getD 3 []) with
      | some tick, some sidx, some bmask => some ⟨tick, sidx, bmask⟩
      | _, _, _ => none
    else none
  else none

/-- Console client: one incoming line's effect on the aggregation state
(`@`-lines and diagnostics leave the buffer and best untouched). -/
def v1_line_step (st : V1State) (line : String) : V1State × Option Sample :=
  match v1_decode line with
  | some r => v1_process st r
  | none => (st, none)

/-- Dashboard: one incoming line's effect on the aggregation state. -/
def v2_line_step (st : V2State) (line : String) : V2State :=
  match v2_decode line with
  | some r => v2_process st r
  | none => st

/-- Run the dashboard aggregation over a list of decoded records. -/
def v2_run_records (rs : List V2Record) : V2State := rs.foldl v2_process v2_init

/-- Run the console aggregation over decoded records, collecting the emitted
completed samples. -/
def v1_run_records (rs : List PartialRecord) : V1State × List Sample :=
  rs.foldl (fun p r =>
    let q := v1_process p.1 r
    (q.1, p.2 ++ q.2.toList)) (v1_init, [])

/-! ### Parameter clamping and the dashboard's unclamped sends -/

/-- `clamp_int` (V1 lines 49-50). -/
def clamp_int (x lo hi : ℤ) : ℤ := max lo (min hi x)

/-- `clamp_float` (V1 lines 52-53). -/
def clamp_float (x lo hi : ℚ) : ℚ := max lo (min hi x)

/-- The console client's clamping of every user-supplied parameter before any
command is sent (V1 lines 126-134): `(T, B, Kp, M, K, STRIDE, BURN)`. -/
def v1_clamped_config (t : ℚ) (b kp m k stride burn : ℤ) :
    ℚ × ℤ × ℤ × ℤ × ℤ × ℤ × ℤ :=
  (clamp_float t 0 1, clamp_int b (-127) 127, clamp_int kp 0 255,
   clamp_int m 0 255, clamp_int k 1 2000, clamp_int stride 1 1000,
   clamp_int burn 0 5000)

/-- Payload of the dashboard's `@GET` (V2 line 268): the user-supplied sample
count is sent as-is, with the fixed stride and burn-in. -/
structure GetCmd where
  k : ℤ
  stride : ℤ
  burn : ℤ
deriving DecidableEq

/-- The `@GET` command `on_start` sends (V2 lines 251, 268). -/
def v2_on_start_get (k : ℤ) : GetCmd := ⟨k, BATCH_STRIDE, BATCH_BURN⟩

/-- Temperature the dashboard pushes in its initial `@PARAM` (V2 lines
263-266): the raw GUI value, unclamped. -/
def v2_on_start_t (anneal_active : Bool) (t_start t_val : ℚ) : ℚ :=
  if anneal_active then t_start else t_val

/-! ### The adaptive (annealing) controller -/

/-- `@PARAM` payload `N=<temperature> B=<bias> K=<coupling> M=<mode>` (the
`%.2f` wire formatting of N is presentation, not modelled). -/
structure ParamCmd where
  n : ℚ
  b : ℤ
  kp : ℤ
  m : ℤ
deriving DecidableEq

/-- The annealing block run on each parsed record (V2 lines 375-384): linear
temperature schedule over batch progress, re-sent only past a 0.01 hysteresis
threshold. Returns the command sent (if any) and the updated `last_sent_t`. -/
def anneal_step (anneal_active : Bool) (t_start t_end : ℚ) (sample_count : ℕ)
    (batch_k : ℤ) (last_sent_t : ℚ) : Option ParamCmd × ℚ :=
  if anneal_active then
    let progress : ℚ := if 0 < batch_k then (sample_count : ℚ) / (batch_k : ℚ) else 0
    let current_t := t_start + (t_end - t_start) * progress
    if 1 / 100 ≤ |current_t - last_sent_t| then
      (some ⟨current_t, PARAM_B, PARAM_KP, PARAM_M⟩, current_t)
    else (none, last_sent_t)
  else (none, last_sent_t)

/-! ### Best-result folds over completed-sample streams -/

/-- Console-client best-result state after a stream of completed samples
(update of V1 lines 245-248 from the initial state of lines 169-171). -/
def v1_fold_best (samples : List Sample) : BestV1 :=
  samples.foldl (fun b s => v1_update_best b s.tick s.score s.bits)
    ⟨-1000000000000000000, none, none⟩

/-- Dashboard best-result state after a stream of completed samples
(update of V2 lines 360-362 from the initial state of lines 101-102). -/
def v2_fold_best (samples : List Sample) : ℚ × Option (List ℤ) :=
  samples.foldl (fun p s => v2_update_best p.1 p.2 s.score s.bits) (0, none)

/-- The per-tick map of the record's tick right after the store (V2). -/
def v2_tickmap (st : V2State) (r : V2Record) : List (ℤ × ℤ) :=
  (alistGet? r.tick (bufferStore st.tick_buffer r.tick r.sidx r.bmask)).getD []

/-- The per-tick map of the record's tick right after the store (V1). -/
def v1_tickmap (st : V1State) (r : PartialRecord) : List (ℤ × (ℤ × ℤ × ℚ × ℤ)) :=
  (alistGet? r.tick
    (bufferStore st.tick_buffer r.tick r.sidx (r.bmask, r.loss, r.noise, r.seed))).getD []

/-! ### Lemmas about the scoring engine -/

lemma length_bits_from_bmask (bm : ℤ) (w : ℕ) : (bits_from_bmask bm w).length = w := by
  simp [bits_from_bmask]

lemma cutWeight_cons (bits : List ℤ) (e : ℕ × ℕ × ℚ) (es : List (ℕ × ℕ × ℚ)) :
    cutWeight bits (e :: es) =
      (if bits.getD e.1 0 ≠ bits.getD e.2.1 0 then e.2.2 else 0) + cutWeight bits es := by
  by_cases hne : bits[e.1]?.getD 0 = bits[e.2.1]?.getD 0 <;>
    simp [cutWeight, List.filter_cons, hne]

lemma maxcut_go_eq (bits : List ℤ) (edges : List (ℕ × ℕ × ℚ))
    (hb : ∀ e ∈ edges, e.1 < bits.length ∧ e.2.1 < bits.length) :
    ∀ a : ℚ, maxcut_go bits edges a = some (a + cutWeight bits edges) := by
  induction edges with
  | nil => intro a; simp [maxcut_go, cutWeight]
  | cons e es ih =>
    intro a
    obtain ⟨h1, h2⟩ := hb e (List.mem_cons_self _ _)
    have hb1 : bits[e.1]? = some (bits.getD e.1 0) := by
      rw [List.getD_eq_getElem?_getD, List.getElem?_eq_getElem h1]; rfl
    have hb2 : bits[e.2.1]? = some (bits.getD e.2.1 0) := by
      rw [List.getD_eq_getElem?_getD, List.getElem?_eq_getElem h2]; rfl
    have hrest : ∀ x ∈ es, x.1 < bits.length ∧ x.2.1 < bits.length :=
      fun x hx => hb x (List.mem_cons_of_mem _ hx)
    rw [maxcut_go, hb1, hb2]
    show maxcut_go bits es _ = _
    rw [ih hrest]
    rw [cutWeight_cons]
    congr 1
    by_cases hne : bits.getD e.1 0 ≠ bits.getD e.2.1 0
    · rw [if_pos hne, if_pos hne]; ring
    · rw [if_neg hne, if_neg hne]; ring

/-- C7: for in-range edge lists, `maxcut_score` returns the sum of the weights
of exactly the edges whose endpoint bits differ; it returns `0.0` on the empty
edge list, is invariant under permutation of the edge list, and returns 0 on an
all-equal bit sequence. -/
theorem maxcut_score_spec (bits : List ℤ) (edges edges' : List (ℕ × ℕ × ℚ))
    (hb : ∀ e ∈ edges, e.1 < bits.length ∧ e.2.1 < bits.length)
    (hperm : edges.Perm edges') :
    maxcut_score bits edges = some (cutWeight bits edges) ∧
    maxcut_score bits [] = some 0 ∧
    maxcut_score bits edges = maxcut_score bits edges' ∧
    ((∀ x ∈ bits, ∀ y ∈ bits, x = y) → maxcut_score bits edges = some 0) := by
  have h1 : maxcut_score bits edges = some (cutWeight bits edges) := by
    rw [maxcut_score, maxcut_go_eq bits edges hb, zero_add]
  refine ⟨h1, by simp [maxcut_score, maxcut_go], ?_, ?_⟩
  · have hb' : ∀ e ∈ edges', e.1 < bits.length ∧ e.2.1 < bits.length :=
      fun e he => hb e (hperm.mem_iff.mpr he)
    have h2 : maxcut_score bits edges' = some (cutWeight bits edges') := by
      rw [maxcut_score, maxcut_go_eq bits edges' hb', zero_add]
    rw [h1, h2]
    exact congrArg some (((hperm.filter _).map _).sum_eq)
  · intro hall
    rw [h1]
    have hnil : edges.filter (fun e => decide (bits.getD e.1 0 ≠ bits.getD e.2.1 0)) = [] := by
      rw [List.filter_eq_nil_iff]
      intro e he
      obtain ⟨he1, he2⟩ := hb e he
      have m1 : bits.getD e.1 0 ∈ bits := by
        rw [List.getD_eq_getElem?_getD, List.getElem?_eq_getElem he1]
        exact List.getElem_mem he1
      have m2 : bits.getD e.2.1 0 ∈ bits := by
        rw [List.getD_eq_getElem?_getD, List.getElem?_eq_getElem he2]
        exact List.getElem_mem he2
      have heq : bits.getD e.1 0 = bits.getD e.2.1 0 := hall _ m1 _ m2
      simp only [decide_eq_true_eq]
      exact not_ne_iff.mpr heq
    unfold cutWeight
    rw [hnil]
    rfl

/-- Witness for C7 at a concrete input (all-equal bits, two edges that are a
permutation of one another). -/
theorem maxcut_score_spec_witness :
    maxcut_score [1, 1] [(0, 1, 1), (1, 0, 2)] = some (cutWeight [1, 1] [(0, 1, 1), (1, 0, 2)]) ∧
    maxcut_score [1, 1] [(0, 1, 1), (1, 0, 2)] = maxcut_score [1, 1] [(1, 0, 2), (0, 1, 1)] ∧
    maxcut_score [1, 1] [(0, 1, 1), (1, 0, 2)] = some 0 := by
  have h := maxcut_score_spec [1, 1] [(0, 1, 1), (1, 0, 2)] [(1, 0, 2), (0, 1, 1)]
    (by decide) (by decide)
  exact ⟨h.1, h.2.2.1, h.2.2.2 (by decide)⟩

/-- C8: `bits_from_bmask mask width` has exactly `width` entries and entry `k`
is `(mask >> k) & 1` (little-endian); as a function it is pure by construction. -/
theorem bits_from_bmask_spec (mask width : ℕ) :
    (bits_from_bmask (mask : ℤ) width).length = width ∧
    ∀ k, k < width →
      (bits_from_bmask (mask : ℤ) width).getD k 0 = (((mask >>> k) &&& 1 : ℕ) : ℤ) := by
  refine ⟨length_bits_from_bmask _ _, ?_⟩
  intro k hk
  rw [bits_from_bmask, List.getD_eq_getElem?_getD, List.getElem?_map, List.getElem?_range hk]
  show ((mask : ℤ).fdiv ((2 ^ k : ℕ) : ℤ)).emod 2 = _
  rw [Nat.shiftRight_eq_div_pow, Nat.and_one_is_mod, Int.ofNat_emod, Int.ofNat_fdiv]
  norm_num
  rfl

/-- Witness for C8 at mask 6, width 4 (bits `0,1,1,0`). -/
theorem bits_from_bmask_spec_witness :
    (bits_from_bmask ((6 : ℕ) : ℤ) 4).length = 4 ∧
    (bits_from_bmask ((6 : ℕ) : ℤ) 4).getD 1 0 = (((6 >>> 1) &&& 1 : ℕ) : ℤ) :=
  ⟨(bits_from_bmask_spec 6 4).1, (bits_from_bmask_spec 6 4).2 1 (by decide)⟩

lemma maxcut_go_flip (bits : List ℤ) (edges : List (ℕ × ℕ × ℚ)) :
    ∀ a : ℚ, maxcut_go (bits.map (fun b => 1 - b)) edges a = maxcut_go bits edges a := by
  induction edges with
  | nil => intro a; rfl
  | cons e es ih =>
    intro a
    rw [maxcut_go, maxcut_go, List.getElem?_map, List.getElem?_map]
    cases h1 : bits[e.1]? <;> cases h2 : bits[e.2.1]? <;>
      simp only [Option.map_none', Option.map_some']
    rw [ih]
    congr 1
    simp only [ne_eq, sub_right_inj]

/-- C10: flipping every bit leaves the cut score unchanged (for edge lists in
range of the bit sequence). -/
theorem maxcut_score_flip (bits : List ℤ) (edges : List (ℕ × ℕ × ℚ))
    (hb : ∀ e ∈ edges, e.1 < bits.length ∧ e.2.1 < bits.length) :
    maxcut_score bits edges = maxcut_score (bits.map (fun b => 1 - b)) edges :=
  (maxcut_go_flip bits edges 0).symm

/-- Witness for C10 at bits `[0, 1]` with one unit edge. -/
theorem maxcut_score_flip_witness :
    maxcut_score [0, 1] [(0, 1, 1)] =
      maxcut_score (List.map (fun b => 1 - b) [0, 1]) [(0, 1, 1)] :=
  maxcut_score_flip [0, 1] [(0, 1, 1)] (by decide)

/-! ### Lemmas about the tick buffer and the aggregation steps -/

lemma alistGet?_alistSet_self {α : Type} (k : ℤ) (v : α) (m : List (ℤ × α)) :
    alistGet? k (alistSet k v m) = some v := by
  induction m with
  | nil => simp [alistSet, alistGet?]
  | cons p rest ih =>
    obtain ⟨k', v'⟩ := p
    by_cases hk : k = k'
    · rw [alistSet, if_pos hk, alistGet?, if_pos rfl]
    · rw [alistSet, if_neg hk, alistGet?, if_neg hk]
      exact ih

lemma alistGet?_mem_keys {α : Type} (k : ℤ) (m : List (ℤ × α))
    (h : (alistGet? k m).isSome) : k ∈ m.map Prod.fst := by
  induction m with
  | nil => simp [alistGet?] at h
  | cons p rest ih =>
    obtain ⟨k', v⟩ := p
    rw [alistGet?] at h
    by_cases hk : k = k'
    · simp [hk]
    · rw [if_neg hk] at h
      simp only [List.map_cons, List.mem_cons]
      exact Or.inr (ih h)

lemma complete_length {α : Type} (m : List (ℤ × α)) (h : completeB m = true) :
    NUM_SLAVES ≤ m.length := by
  have hall : ∀ s ∈ List.range NUM_SLAVES, (alistGet? ((s : ℕ) : ℤ) m).isSome := by
    simpa [completeB] using h
  have hsub : ((List.range NUM_SLAVES).map (fun s : ℕ => (s : ℤ))) ⊆ m.map Prod.fst := by
    intro x hx
    obtain ⟨s, hs, rfl⟩ := List.mem_map.mp hx
    exact alistGet?_mem_keys _ _ (hall s hs)
  have hnd : ((List.range NUM_SLAVES).map (fun s : ℕ => (s : ℤ))).Nodup := by decide
  have hle := (List.subperm_of_subset hnd hsub).length_le
  simpa using hle

lemma length_filterMap_isSome {α β : Type} (f : α → Option β) (l : List α) :
    (l.filterMap f).length = (l.filter (fun a => (f a).isSome)).length := by
  induction l with
  | nil => rfl
  | cons a l ih =>
    cases h : f a
    · rw [List.filterMap_cons_none h, List.filter_cons]
      simp [h, ih]
    · rw [List.filterMap_cons_some h, List.filter_cons]
      simp [h, ih]

lemma length_filter_eq_iff {α : Type} (p : α → Bool) (l : List α) :
    (l.filter p).length = l.length ↔ ∀ a ∈ l, p a := by
  induction l with
  | nil => simp
  | cons a l ih =>
    rw [List.filter_cons]
    by_cases h : p a
    · simp only [if_pos h, List.length_cons, Nat.add_right_cancel_iff, ih]
      constructor
      · intro hall x hx
        rcases List.mem_cons.mp hx with rfl | hx
        · exact h
        · exact hall x hx
      · intro hall x hx
        exact hall x (List.mem_cons_of_mem _ hx)
    · rw [if_neg h]
      have hle := List.length_filter_le p l
      constructor
      · intro hl
        exfalso
        rw [List.length_cons] at hl
        omega
      · intro hall
        exact absurd (hall a (List.mem_cons_self a l)) h

lemma filterMap_eq_map_of_some {α β : Type} (f : α → Option β) (g : α → β) (l : List α)
    (h : ∀ a ∈ l, f a = some (g a)) : l.filterMap f = l.map g := by
  induction l with
  | nil => rfl
  | cons a l ih =>
    rw [List.filterMap_cons_some (h a (List.mem_cons_self a l)), List.map_cons,
      ih (fun x hx => h x (List.mem_cons_of_mem _ hx))]

lemma takeWhile_eq_self_of_all {α : Type} (p : α → Bool) (l : List α)
    (h : ∀ a ∈ l, p a) : l.takeWhile p = l := by
  induction l with
  | nil => rfl
  | cons a l ih =>
    rw [List.takeWhile_cons, if_pos (h a (List.mem_cons_self a l)),
      ih (fun x hx => h x (List.mem_cons_of_mem _ hx))]

lemma completeB_iff {α : Type} (m : List (ℤ × α)) :
    completeB m = true ↔ ∀ s : ℕ, s < NUM_SLAVES → (alistGet? ((s : ℕ) : ℤ) m).isSome := by
  simp [completeB]

lemma v2_vec_complete (m : List (ℤ × ℤ)) (h : completeB m = true) :
    v2_vec m = (List.range NUM_SLAVES).map
      (fun s => bits_from_bmask ((alistGet? ((s : ℕ) : ℤ) m).getD 0) 4) := by
  apply filterMap_eq_map_of_some
  intro s hs
  obtain ⟨bm, hbm⟩ := Option.isSome_iff_exists.mp
    ((completeB_iff m).mp h s (List.mem_range.mp hs))
  simp [hbm]

lemma v2_vec_length_iff (m : List (ℤ × ℤ)) :
    (v2_vec m).length = NUM_SLAVES ↔ completeB m = true := by
  rw [v2_vec, length_filterMap_isSome]
  have hcongr : (List.range NUM_SLAVES).filter
      (fun s => ((alistGet? ((s : ℕ) : ℤ) m).map (fun bm => bits_from_bmask bm 4)).isSome) =
      (List.range NUM_SLAVES).filter (fun s => (alistGet? ((s : ℕ) : ℤ) m).isSome) := by
    apply List.filter_congr
    intro s _
    cases h : alistGet? ((s : ℕ) : ℤ) m <;> simp [h]
  rw [hcongr]
  constructor
  · intro hl
    have hl2 : ((List.range NUM_SLAVES).filter
        (fun s => (alistGet? ((s : ℕ) : ℤ) m).isSome)).length
        = (List.range NUM_SLAVES).length := by
      simpa using hl
    have hall := (length_filter_eq_iff _ _).mp hl2
    simpa [completeB] using hall
  · intro hc
    have hall : ∀ s ∈ List.range NUM_SLAVES, (alistGet? ((s : ℕ) : ℤ) m).isSome := by
      simpa [completeB] using hc
    have hres := (length_filter_eq_iff _ _).mpr hall
    simpa using hres

lemma v2_flatten_length (m : List (ℤ × ℤ)) (h : completeB m = true) :
    ((v2_vec m).flatten).length = N_BITS := by
  rw [v2_vec_complete m h, List.length_flatten, List.map_map]
  have hconst : ∀ s ∈ List.range NUM_SLAVES,
      (List.length ∘ fun s => bits_from_bmask ((alistGet? ((s : ℕ) : ℤ) m).getD 0) 4) s = 4 :=
    fun s _ => length_bits_from_bmask _ _
  rw [List.map_congr_left hconst]
  decide

lemma v1_vec_complete (m : List (ℤ × (ℤ × ℤ × ℚ × ℤ))) (h : completeB m = true) :
    v1_vec m = (List.range NUM_SLAVES).map
      (fun s => bits_from_bmask ((alistGet? ((s : ℕ) : ℤ) m).getD (0, 0, 0, 0)).1
        BITS_PER_SLAVE) := by
  rw [v1_vec, takeWhile_eq_self_of_all _ _ (by simpa [completeB] using h)]
  apply filterMap_eq_map_of_some
  intro s hs
  obtain ⟨r, hr⟩ := Option.isSome_iff_exists.mp
    ((completeB_iff m).mp h s (List.mem_range.mp hs))
  simp [hr]

lemma v1_vec_length_iff (m : List (ℤ × (ℤ × ℤ × ℚ × ℤ))) :
    (v1_vec m).length = NUM_SLAVES ↔ completeB m = true := by
  constructor
  · intro hl
    have hlen2 : (v1_vec m).length =
        ((List.range NUM_SLAVES).takeWhile
          (fun s => (alistGet? ((s : ℕ) : ℤ) m).isSome)).length := by
      rw [v1_vec, length_filterMap_isSome, List.filter_eq_self.mpr]
      intro a ha
      have hpa := List.mem_takeWhile_imp ha
      cases h : alistGet? ((a : ℕ) : ℤ) m
      · rw [h] at hpa; simp at hpa
      · simp [h]
    rw [hlen2] at hl
    have heq : (List.range NUM_SLAVES).takeWhile
        (fun s => (alistGet? ((s : ℕ) : ℤ) m).isSome) = List.range NUM_SLAVES :=
      (List.takeWhile_prefix _).eq_of_length (by simpa using hl)
    have hall : ∀ s ∈ List.range NUM_SLAVES, (alistGet? ((s : ℕ) : ℤ) m).isSome := by
      intro s hs
      have hmem : s ∈ (List.range NUM_SLAVES).takeWhile
          (fun s => (alistGet? ((s : ℕ) : ℤ) m).isSome) := by
        rw [heq]; exact hs
      have hps := List.mem_takeWhile_imp hmem
      exact hps
    simpa [completeB] using hall
  · intro hc
    rw [v1_vec_complete m hc]
    simp

lemma v1_flatten_length (m : List (ℤ × (ℤ × ℤ × ℚ × ℤ))) (h : completeB m = true) :
    ((v1_vec m).flatten).length = N_BITS := by
  rw [v1_vec_complete m h, List.length_flatten, List.map_map]
  have hconst : ∀ s ∈ List.range NUM_SLAVES,
      (List.length ∘ fun s => bits_from_bmask ((alistGet? ((s : ℕ) : ℤ) m).getD (0, 0, 0, 0)).1
        BITS_PER_SLAVE) s = 4 :=
    fun s _ => length_bits_from_bmask _ _
  rw [List.map_congr_left hconst]
  decide

lemma maxcut_EDGES_isSome (bits : List ℤ) (h : bits.length = N_BITS) :
    ∃ q, maxcut_score bits EDGES = some q := by
  have hb : ∀ e ∈ EDGES, e.1 < bits.length ∧ e.2.1 < bits.length := by
    rw [h]; decide
  exact ⟨0 + cutWeight bits EDGES, maxcut_go_eq bits EDGES hb 0⟩

lemma v2_process_complete (st : V2State) (r : V2Record)
    (hc : completeB (v2_tickmap st r) = true) :
    ∃ score, maxcut_score (v2_vec (v2_tickmap st r)).flatten EDGES = some score ∧
      v2_process st r =
        { tick_buffer := evict (bufferStore st.tick_buffer r.tick r.sidx r.bmask),
          all_scores := st.all_scores ++ [score],
          all_samples := st.all_samples ++
            [⟨r.tick, score, (v2_vec (v2_tickmap st r)).flatten⟩],
          sample_count := st.sample_count + 1,
          best_score := (v2_update_best st.best_score st.best_bits score
            (v2_vec (v2_tickmap st r)).flatten).1,
          best_bits := (v2_update_best st.best_score st.best_bits score
            (v2_vec (v2_tickmap st r)).flatten).2 } := by
  have hlen : NUM_SLAVES ≤ (v2_tickmap st r).length := complete_length _ hc
  have hveclen : (v2_vec (v2_tickmap st r)).length = NUM_SLAVES := (v2_vec_length_iff _).mpr hc
  obtain ⟨q, hq⟩ := maxcut_EDGES_isSome _ (v2_flatten_length _ hc)
  refine ⟨q, hq, ?_⟩
  simp only [v2_tickmap] at hlen hveclen hq
  simp only [v2_tickmap, v2_process]
  rw [if_pos hlen, if_pos hveclen, hq]

lemma v2_process_incomplete_low (st : V2State) (r : V2Record)
    (h : (v2_tickmap st r).length < NUM_SLAVES) :
    v2_process st r =
      { st with tick_buffer := bufferStore st.tick_buffer r.tick r.sidx r.bmask } := by
  simp only [v2_tickmap] at h
  simp only [v2_process]
  rw [if_neg (not_le.mpr h)]

lemma v2_process_incomplete_high (st : V2State) (r : V2Record)
    (h1 : NUM_SLAVES ≤ (v2_tickmap st r).length)
    (h2 : completeB (v2_tickmap st r) = false) :
    v2_process st r =
      { st with tick_buffer := evict (bufferStore st.tick_buffer r.tick r.sidx r.bmask) } := by
  have hvec : ¬ (v2_vec (v2_tickmap st r)).length = NUM_SLAVES := by
    intro hcon
    rw [(v2_vec_length_iff _).mp hcon] at h2
    simp at h2
  simp only [v2_tickmap] at h1 hvec
  simp only [v2_process]
  rw [if_pos h1, if_neg hvec]

lemma v1_process_complete (st : V1State) (r : PartialRecord)
    (hc : completeB (v1_tickmap st r) = true) :
    ∃ score, maxcut_score (v1_vec (v1_tickmap st r)).flatten EDGES = some score ∧
      v1_process st r =
        (⟨evict (bufferStore st.tick_buffer r.tick r.sidx (r.bmask, r.loss, r.noise, r.seed)),
          v1_update_best st.best r.tick score (v1_vec (v1_tickmap st r)).flatten⟩,
         some ⟨r.tick, score, (v1_vec (v1_tickmap st r)).flatten⟩) := by
  have hlen : NUM_SLAVES ≤ (v1_tickmap st r).length := complete_length _ hc
  have hveclen : (v1_vec (v1_tickmap st r)).length = NUM_SLAVES := (v1_vec_length_iff _).mpr hc
  obtain ⟨q, hq⟩ := maxcut_EDGES_isSome _ (v1_flatten_length _ hc)
  refine ⟨q, hq, ?_⟩
  simp only [v1_tickmap] at hlen hveclen hq
  simp only [v1_tickmap, v1_process]
  rw [if_pos hlen, if_pos hveclen, hq]

lemma v1_process_incomplete_low (st : V1State) (r : PartialRecord)
    (h : (v1_tickmap st r).length < NUM_SLAVES) :
    v1_process st r =
      (⟨bufferStore st.tick_buffer r.tick r.sidx (r.bmask, r.loss, r.noise, r.seed),
        st.best⟩, none) := by
  simp only [v1_tickmap] at h
  simp only [v1_process]
  rw [if_neg (not_le.mpr h)]

lemma v1_process_incomplete_high (st : V1State) (r : PartialRecord)
    (h1 : NUM_SLAVES ≤ (v1_tickmap st r).length)
    (h2 : completeB (v1_tickmap st r) = false) :
    v1_process st r =
      (⟨evict (bufferStore st.tick_buffer r.tick r.sidx (r.bmask, r.loss, r.noise, r.seed)),
        st.best⟩, none) := by
  have hvec : ¬ (v1_vec (v1_tickmap st r)).length = NUM_SLAVES := by
    intro hcon
    rw [(v1_vec_length_iff _).mp hcon] at h2
    simp at h2
  simp only [v1_tickmap] at h1 hvec
  simp only [v1_process]
  rw [if_pos h1, if_neg hvec]

/-! ### Lemmas about eviction and the best-result update -/

lemma map_fst_filter {α : Type} (p : ℤ → Bool) (buf : List (ℤ × α)) :
    (buf.filter (fun q => p q.1)).map Prod.fst = (buf.map Prod.fst).filter p := by
  induction buf with
  | nil => rfl
  | cons q l ih =>
    by_cases h : p q.1 <;> simp [List.filter_cons, h, ih]

lemma filter_not_mem_append (l1 l2 : List ℤ) (hd : (l1 ++ l2).Nodup) :
    (l1 ++ l2).filter (fun x => decide (x ∉ l1)) = l2 := by
  rw [List.filter_append]
  have h1 : l1.filter (fun x => decide (x ∉ l1)) = [] := by
    rw [List.filter_eq_nil_iff]; intro a ha; simp [ha]
  have h2 : l2.filter (fun x => decide (x ∉ l1)) = l2 := by
    rw [List.filter_eq_self]
    intro a ha
    have hdisj := (List.nodup_append.mp hd).2.2
    simpa using fun hal => hdisj hal ha
  rw [h1, h2, List.nil_append]

lemma evict_spec {α : Type} (buf : TickBuffer α)
    (hnd : (buf.map Prod.fst).Nodup) (hlen : 50 < buf.length) :
    ((evict buf).map Prod.fst).Perm
      ((List.insertionSort (· ≤ ·) (buf.map Prod.fst)).drop (buf.length - 20)) ∧
    (evict buf).length = 20 := by
  have hkl : (buf.map Prod.fst).length = buf.length := List.length_map _ _
  have hperm : (List.insertionSort (· ≤ ·) (buf.map Prod.fst)).Perm (buf.map Prod.fst) :=
    List.perm_insertionSort _ _
  have hslen : (List.insertionSort (· ≤ ·) (buf.map Prod.fst)).length = buf.length := by
    rw [hperm.length_eq, hkl]
  have hnds : (List.insertionSort (· ≤ ·) (buf.map Prod.fst)).Nodup := hperm.nodup_iff.mpr hnd
  have hevict : evict buf = buf.filter (fun p => decide (p.1 ∉
      (List.insertionSort (· ≤ ·) (buf.map Prod.fst)).take (buf.length - 20))) := by
    simp only [evict]
    rw [if_pos hlen, hkl]
  have hkeys : (evict buf).map Prod.fst = (buf.map Prod.fst).filter (fun x => decide (x ∉
      (List.insertionSort (· ≤ ·) (buf.map Prod.fst)).take (buf.length - 20))) := by
    rw [hevict]
    exact map_fst_filter (fun x => decide (x ∉
      (List.insertionSort (· ≤ ·) (buf.map Prod.fst)).take (buf.length - 20))) buf
  have hfs : (List.insertionSort (· ≤ ·) (buf.map Prod.fst)).filter (fun x => decide (x ∉
      (List.insertionSort (· ≤ ·) (buf.map Prod.fst)).take (buf.length - 20)))
      = (List.insertionSort (· ≤ ·) (buf.map Prod.fst)).drop (buf.length - 20) := by
    have happ := filter_not_mem_append
      ((List.insertionSort (· ≤ ·) (buf.map Prod.fst)).take (buf.length - 20))
      ((List.insertionSort (· ≤ ·) (buf.map Prod.fst)).drop (buf.length - 20))
      (by rw [List.take_append_drop]; exact hnds)
    calc (List.insertionSort (· ≤ ·) (buf.map Prod.fst)).filter (fun x => decide (x ∉
          (List.insertionSort (· ≤ ·) (buf.map Prod.fst)).take (buf.length - 20)))
        = ((List.insertionSort (· ≤ ·) (buf.map Prod.fst)).take (buf.length - 20) ++
            (List.insertionSort (· ≤ ·) (buf.map Prod.fst)).drop (buf.length - 20)).filter
            (fun x => decide (x ∉
              (List.insertionSort (· ≤ ·) (buf.map Prod.fst)).take (buf.length - 20))) := by
          rw [List.take_append_drop]
      _ = (List.insertionSort (· ≤ ·) (buf.map Prod.fst)).drop (buf.length - 20) := happ
  have hpermfil : ((buf.map Prod.fst).filter (fun x => decide (x ∉
      (List.insertionSort (· ≤ ·) (buf.map Prod.fst)).take (buf.length - 20)))).Perm
      ((List.insertionSort (· ≤ ·) (buf.map Prod.fst)).drop (buf.length - 20)) := by
    have hstep := (hperm.filter (fun x => decide (x ∉
      (List.insertionSort (· ≤ ·) (buf.map Prod.fst)).take (buf.length - 20)))).symm
    rw [hfs] at hstep
    exact hstep
  refine ⟨by rw [hkeys]; exact hpermfil, ?_⟩
  have hl1 : (evict buf).length = ((evict buf).map Prod.fst).length :=
    (List.length_map _ _).symm
  rw [hl1, hkeys, hpermfil.length_eq, List.length_drop, hslen]
  omega

lemma v1_update_best_score (b : BestV1) (t : ℤ) (sc : ℚ) (bits : List ℤ) :
    (v1_update_best b t sc bits).score = max b.score sc := by
  by_cases h : sc > b.score
  · simp [v1_update_best, h, max_eq_right (le_of_lt h)]
  · simp [v1_update_best, h, max_eq_left (not_lt.mp h)]

lemma v1_update_best_of_le (b : BestV1) (t : ℤ) (sc : ℚ) (bits : List ℤ)
    (h : sc ≤ b.score) : v1_update_best b t sc bits = b := by
  rw [v1_update_best, if_neg (not_lt.mpr h)]

lemma v2_update_best_fst (bs : ℚ) (bb : Option (List ℤ)) (sc : ℚ) (bits : List ℤ) :
    (v2_update_best bs bb sc bits).1 = max bs sc := by
  by_cases h : sc > bs
  · simp [v2_update_best, h, max_eq_right (le_of_lt h)]
  · simp [v2_update_best, h, max_eq_left (not_lt.mp h)]

lemma v2_update_best_of_le (bs : ℚ) (bb : Option (List ℤ)) (sc : ℚ) (bits : List ℤ)
    (h : sc ≤ bs) : v2_update_best bs bb sc bits = (bs, bb) := by
  rw [v2_update_best, if_neg (not_lt.mpr h)]

lemma v1_fold_score (samples : List Sample) :
    ∀ b : BestV1, (samples.foldl (fun b s => v1_update_best b s.tick s.score s.bits) b).score
      = samples.foldl (fun m s => max m s.score) b.score := by
  induction samples with
  | nil => intro b; rfl
  | cons s ss ih =>
    intro b
    rw [List.foldl_cons, List.foldl_cons, ih, v1_update_best_score]

lemma v2_fold_score (samples : List Sample) :
    ∀ p : ℚ × Option (List ℤ),
      (samples.foldl (fun p s => v2_update_best p.1 p.2 s.score s.bits) p).1
        = samples.foldl (fun m s => max m s.score) p.1 := by
  induction samples with
  | nil => intro p; rfl
  | cons s ss ih =>
    intro p
    rw [List.foldl_cons, List.foldl_cons, ih, v2_update_best_fst]

/-! ### Claim theorems: tick aggregation (C1, C3, C4) and best result (C2) -/

/-- C1 counterexample: four records complete tick 0, then a duplicate record
for unit 0 of tick 0 arrives. The claim says the duplicate is ignored, but in
both clients the tick is re-scored and a second `CompletedSample` is produced
for tick 0 (the dashboard records two samples, the console emits twice). -/
theorem duplicate_reemits_counterexample :
    ((v2_run_records [⟨0, 0, 0⟩, ⟨0, 1, 0⟩, ⟨0, 2, 0⟩, ⟨0, 3, 0⟩, ⟨0, 0, 0⟩]).all_samples.map
      (fun s => s.tick)) = [0, 0] ∧
    ((v1_run_records [⟨0, 0, 0, 0, 0, 0⟩, ⟨0, 1, 0, 0, 0, 0⟩, ⟨0, 2, 0, 0, 0, 0⟩,
      ⟨0, 3, 0, 0, 0, 0⟩, ⟨0, 0, 0, 0, 0, 0⟩]).2).length = 2 := by
  decide

/-- C1 (amended): neither client marks a tick finalized. A `CompletedSample` is
emitted on every ingest after which the record's per-tick unit map contains all
unit indices `0..NUM_SLAVES-1` — including re-ingests for an already-completed
tick, which recompute the score and emit again; the incoming record always
overwrites the stored unit entry. -/
theorem emission_per_ingest (st : V2State) (r : V2Record)
    (st1 : V1State) (r1 : PartialRecord) :
    (v2_process st r).all_samples.length
      = st.all_samples.length + (if completeB (v2_tickmap st r) = true then 1 else 0) ∧
    ((v1_process st1 r1).2.isSome ↔ completeB (v1_tickmap st1 r1) = true) ∧
    alistGet? r.sidx (v2_tickmap st r) = some r.bmask := by
  refine ⟨?_, ?_, ?_⟩
  · by_cases hc : completeB (v2_tickmap st r) = true
    · obtain ⟨q, hq, heq⟩ := v2_process_complete st r hc
      rw [heq]
      simp [hc]
    · have hc' : completeB (v2_tickmap st r) = false := by simpa using hc
      rcases lt_or_le (v2_tickmap st r).length NUM_SLAVES with h | h
      · rw [v2_process_incomplete_low st r h]
        simp [hc']
      · rw [v2_process_incomplete_high st r h hc']
        simp [hc']
  · constructor
    · intro hsome
      by_contra hc
      have hc' : completeB (v1_tickmap st1 r1) = false := by simpa using hc
      rcases lt_or_le (v1_tickmap st1 r1).length NUM_SLAVES with h | h
      · rw [v1_process_incomplete_low st1 r1 h] at hsome
        simp at hsome
      · rw [v1_process_incomplete_high st1 r1 h hc'] at hsome
        simp at hsome
    · intro hc
      obtain ⟨q, hq, heq⟩ := v1_process_complete st1 r1 hc
      rw [heq]
      rfl
  · rw [v2_tickmap, bufferStore, alistGet?_alistSet_self]
    exact alistGet?_alistSet_self _ _ _

/-- Witness for C1's amended theorem: a record completing its tick emits one
sample; a record that does not complete emits none; the store overwrites. -/
theorem emission_per_ingest_witness :
    (v2_process ⟨[(0, [(0, 0), (1, 0), (2, 0)])], [], [], 0, 0, none⟩
      ⟨0, 3, 0⟩).all_samples.length = 0 + 1 ∧
    (v1_process v1_init ⟨7, 2, 9, 0, 0, 0⟩).2.isSome = false ∧
    alistGet? 3 (v2_tickmap ⟨[(0, [(0, 0), (1, 0), (2, 0)])], [], [], 0, 0, none⟩
      ⟨0, 3, 0⟩) = some 0 := by
  have h1 := (emission_per_ingest ⟨[(0, [(0, 0), (1, 0), (2, 0)])], [], [], 0, 0, none⟩
    ⟨0, 3, 0⟩ v1_init ⟨7, 2, 9, 0, 0, 0⟩).1
  have h2 := (emission_per_ingest ⟨[(0, [(0, 0), (1, 0), (2, 0)])], [], [], 0, 0, none⟩
    ⟨0, 3, 0⟩ v1_init ⟨7, 2, 9, 0, 0, 0⟩).2.1
  have h3 := (emission_per_ingest ⟨[(0, [(0, 0), (1, 0), (2, 0)])], [], [], 0, 0, none⟩
    ⟨0, 3, 0⟩ v1_init ⟨7, 2, 9, 0, 0, 0⟩).2.2
  refine ⟨?_, ?_, h3⟩
  · rw [h1]
    decide
  · by_contra hne
    have hsome : ((v1_process v1_init ⟨7, 2, 9, 0, 0, 0⟩).2).isSome = true := by
      revert hne
      cases ((v1_process v1_init ⟨7, 2, 9, 0, 0, 0⟩).2).isSome <;> simp
    exact absurd (h2.mp hsome) (by decide)

/-- C2 counterexample: the dashboard's best score starts at 0 (the console's at
-1e18), not -∞; a completed sample whose score ties the initial 0 (all-equal
bits) never has its bits recorded: `best_bits` stays `none` although one
completed sample was seen. -/
theorem best_init_counterexample :
    (v2_run_records [⟨0, 0, 0⟩, ⟨0, 1, 0⟩, ⟨0, 2, 0⟩, ⟨0, 3, 0⟩]).all_samples.length = 1 ∧
    (v2_run_records [⟨0, 0, 0⟩, ⟨0, 1, 0⟩, ⟨0, 2, 0⟩, ⟨0, 3, 0⟩]).best_score = 0 ∧
    (v2_run_records [⟨0, 0, 0⟩, ⟨0, 1, 0⟩, ⟨0, 2, 0⟩, ⟨0, 3, 0⟩]).best_bits = none ∧
    v1_init.best.score = -1000000000000000000 ∧
    v2_init.best_score = 0 := by
  decide

/-- C2 (amended): the best score starts at -1e18 (console) / 0 with no bits
(dashboard); after any stream of completed samples it equals the maximum of
that initial value and all sample scores; it is updated only on a strictly
greater score, so it never decreases and a sample whose score ties or is below
the current best leaves the best (bits and tick included) unchanged. -/
theorem best_fold_spec (samples : List Sample) :
    (v1_fold_best samples).score
      = samples.foldl (fun m s => max m s.score) (-1000000000000000000) ∧
    (v2_fold_best samples).1 = samples.foldl (fun m s => max m s.score) 0 ∧
    (∀ s : Sample, (v1_fold_best samples).score ≤ (v1_fold_best (samples ++ [s])).score) ∧
    (∀ s : Sample, s.score ≤ (v1_fold_best samples).score →
      v1_fold_best (samples ++ [s]) = v1_fold_best samples) ∧
    (∀ s : Sample, s.score ≤ (v2_fold_best samples).1 →
      v2_fold_best (samples ++ [s]) = v2_fold_best samples) := by
  refine ⟨v1_fold_score samples _, v2_fold_score samples _, ?_, ?_, ?_⟩
  · intro s
    rw [v1_fold_best, v1_fold_best, List.foldl_append, List.foldl_cons, List.foldl_nil,
      v1_update_best_score]
    exact le_max_left _ _
  · intro s h
    have heq : v1_fold_best (samples ++ [s])
        = v1_update_best (v1_fold_best samples) s.tick s.score s.bits := by
      rw [v1_fold_best, List.foldl_append, List.foldl_cons, List.foldl_nil]
      rfl
    rw [heq, v1_update_best_of_le _ _ _ _ h]
  · intro s h
    have heq : v2_fold_best (samples ++ [s])
        = v2_update_best (v2_fold_best samples).1 (v2_fold_best samples).2 s.score s.bits := by
      rw [v2_fold_best, List.foldl_append, List.foldl_cons, List.foldl_nil]
      rfl
    rw [heq, v2_update_best_of_le _ _ _ _ h]

/-- Witness for C2's amended theorem on a two-sample stream with a tie. -/
theorem best_fold_spec_witness :
    (v1_fold_best ([⟨1, 3, [1]⟩, ⟨2, 3, [0]⟩] : List Sample)).score
      = ([⟨1, 3, [1]⟩, ⟨2, 3, [0]⟩] : List Sample).foldl (fun m s => max m s.score)
        (-1000000000000000000 : ℚ) ∧
    v1_fold_best (([⟨1, 3, [1]⟩] : List Sample) ++ [⟨2, 3, [0]⟩])
      = v1_fold_best ([⟨1, 3, [1]⟩] : List Sample) ∧
    v2_fold_best (([⟨1, 3, [1]⟩] : List Sample) ++ [⟨2, 3, [0]⟩])
      = v2_fold_best ([⟨1, 3, [1]⟩] : List Sample) := by
  refine ⟨(best_fold_spec ([⟨1, 3, [1]⟩, ⟨2, 3, [0]⟩] : List Sample)).1, ?_, ?_⟩
  · exact (best_fold_spec ([⟨1, 3, [1]⟩] : List Sample)).2.2.2.1 ⟨2, 3, [0]⟩ (by decide)
  · exact (best_fold_spec ([⟨1, 3, [1]⟩] : List Sample)).2.2.2.2 ⟨2, 3, [0]⟩ (by decide)

set_option maxRecDepth 40000 in
/-- C3 counterexample: 51 distinct ticks, each with a single unit record: no
ingest ever reaches the completion-size branch, so the eviction check never
runs and the number of tracked ticks exceeds the watermark 50 after an ingest. -/
theorem watermark_counterexample :
    (v2_run_records ((List.range 51).map (fun i => ⟨(i : ℤ), 0, 0⟩))).tick_buffer.length
      = 51 := by
  decide

/-- C3 (amended): the eviction check runs only on an ingest that finds the
stored tick's unit map at size ≥ NUM_SLAVES (ingests below that threshold
never evict, so the tracked-tick count is not bounded in general); when it
runs on a buffer of more than 50 distinct ticks it keeps exactly the 20
largest tick ids (evicting the oldest, in ascending order, regardless of
completion status). -/
theorem eviction_spec (st : V2State) (r : V2Record) (buf : TickBuffer ℤ)
    (hnd : (buf.map Prod.fst).Nodup) (hlen : 50 < buf.length) :
    ((v2_tickmap st r).length < NUM_SLAVES →
      (v2_process st r).tick_buffer = bufferStore st.tick_buffer r.tick r.sidx r.bmask) ∧
    (NUM_SLAVES ≤ (v2_tickmap st r).length →
      (v2_process st r).tick_buffer
        = evict (bufferStore st.tick_buffer r.tick r.sidx r.bmask)) ∧
    ((evict buf).map Prod.fst).Perm
      ((List.insertionSort (· ≤ ·) (buf.map Prod.fst)).drop (buf.length - 20)) ∧
    (evict buf).length = 20 := by
  obtain ⟨hp, hl⟩ := evict_spec buf hnd hlen
  refine ⟨?_, ?_, hp, hl⟩
  · intro h
    rw [v2_process_incomplete_low st r h]
  · intro h
    by_cases hc : completeB (v2_tickmap st r) = true
    · obtain ⟨q, hq, heq⟩ := v2_process_complete st r hc
      rw [heq]
    · exact congrArg V2State.tick_buffer
        (v2_process_incomplete_high st r h (by simpa using hc))

/-- Witness for C3's amended theorem: a below-threshold ingest leaves the
buffer unevicted; an at-threshold ingest evicts; a 51-key buffer evicts down
to 20 entries. -/
theorem eviction_spec_witness :
    (v2_process v2_init ⟨0, 0, 0⟩).tick_buffer
      = bufferStore v2_init.tick_buffer 0 0 0 ∧
    (v2_process ⟨[(0, [(0, 0), (1, 0), (2, 0)])], [], [], 0, 0, none⟩
        ⟨0, 3, 0⟩).tick_buffer
      = evict (bufferStore [(0, [(0, 0), (1, 0), (2, 0)])] 0 3 0) ∧
    (evict ((List.range 51).map (fun i => (((i : ℕ) : ℤ), ([] : List (ℤ × ℤ)))))).length
      = 20 := by
  refine ⟨?_, ?_, ?_⟩
  · exact (eviction_spec v2_init ⟨0, 0, 0⟩
      ((List.range 51).map (fun i => (((i : ℕ) : ℤ), ([] : List (ℤ × ℤ)))))
      (by decide) (by decide)).1 (by decide)
  · exact (eviction_spec ⟨[(0, [(0, 0), (1, 0), (2, 0)])], [], [], 0, 0, none⟩ ⟨0, 3, 0⟩
      ((List.range 51).map (fun i => (((i : ℕ) : ℤ), ([] : List (ℤ × ℤ)))))
      (by decide) (by decide)).2.1 (by decide)
  · exact (eviction_spec v2_init ⟨0, 0, 0⟩
      ((List.range 51).map (fun i => (((i : ℕ) : ℤ), ([] : List (ℤ × ℤ)))))
      (by decide) (by decide)).2.2.2

/-- C4: a tick is completed and scored exactly when its per-tick unit map
contains every index `0..NUM_SLAVES-1` (a map with a gap below `NUM_SLAVES`
emits nothing, whatever its size); when it completes, the emitted bit sequence
is the concatenation of each unit's decoded bits in ascending unit-index
order. Stated for both clients. -/
theorem contiguous_completion (st : V2State) (r : V2Record)
    (st1 : V1State) (r1 : PartialRecord) :
    ((v2_process st r).all_samples = st.all_samples ↔
      ¬ completeB (v2_tickmap st r) = true) ∧
    (completeB (v2_tickmap st r) = true →
      (v2_process st r).all_samples = st.all_samples ++
        [⟨r.tick,
          (maxcut_score (((List.range NUM_SLAVES).map (fun s =>
            bits_from_bmask ((alistGet? ((s : ℕ) : ℤ) (v2_tickmap st r)).getD 0) 4)).flatten)
            EDGES).getD 0,
          ((List.range NUM_SLAVES).map (fun s =>
            bits_from_bmask ((alistGet? ((s : ℕ) : ℤ) (v2_tickmap st r)).getD 0) 4)).flatten⟩]) ∧
    ((v1_process st1 r1).2 = none ↔ ¬ completeB (v1_tickmap st1 r1) = true) ∧
    (completeB (v1_tickmap st1 r1) = true →
      (v1_process st1 r1).2 = some
        ⟨r1.tick,
          (maxcut_score (((List.range NUM_SLAVES).map (fun s =>
            bits_from_bmask ((alistGet? ((s : ℕ) : ℤ) (v1_tickmap st1 r1)).getD (0, 0, 0, 0)).1
            BITS_PER_SLAVE)).flatten) EDGES).getD 0,
          ((List.range NUM_SLAVES).map (fun s =>
            bits_from_bmask ((alistGet? ((s : ℕ) : ℤ) (v1_tickmap st1 r1)).getD (0, 0, 0, 0)).1
            BITS_PER_SLAVE)).flatten⟩) := by
  refine ⟨?_, ?_, ?_, ?_⟩
  · constructor
    · intro hsame hc
      obtain ⟨q, hq, heq⟩ := v2_process_complete st r hc
      rw [heq] at hsame
      simp at hsame
    · intro hc
      have hc' : completeB (v2_tickmap st r) = false := by simpa using hc
      rcases lt_or_le (v2_tickmap st r).length NUM_SLAVES with h | h
      · rw [v2_process_incomplete_low st r h]
      · rw [v2_process_incomplete_high st r h hc']
  · intro hc
    obtain ⟨q, hq, heq⟩ := v2_process_complete st r hc
    rw [heq, v2_vec_complete _ hc]
    rw [v2_vec_complete _ hc] at hq
    rw [hq]
    rfl
  · constructor
    · intro hnone hc
      obtain ⟨q, hq, heq⟩ := v1_process_complete st1 r1 hc
      rw [heq] at hnone
      simp at hnone
    · intro hc
      have hc' : completeB (v1_tickmap st1 r1) = false := by simpa using hc
      rcases lt_or_le (v1_tickmap st1 r1).length NUM_SLAVES with h | h
      · rw [v1_process_incomplete_low st1 r1 h]
      · rw [v1_process_incomplete_high st1 r1 h hc']
  · intro hc
    obtain ⟨q, hq, heq⟩ := v1_process_complete st1 r1 hc
    rw [heq, v1_vec_complete _ hc]
    rw [v1_vec_complete _ hc] at hq
    rw [hq]
    rfl

/-- Witness for C4: a gapped tick (units `{0, 2, 3}` then a fourth distinct
unit 5, still missing unit 1) emits nothing; a complete tick emits the
ordered concatenation. -/
theorem contiguous_completion_witness :
    (v2_process ⟨[(0, [(0, 1), (2, 1), (3, 1)])], [], [], 0, 0, none⟩
      ⟨0, 5, 1⟩).all_samples = [] ∧
    (v1_process ⟨[(0, [(0, 1), (2, 1), (3, 1)])], ⟨-1000000000000000000, none, none⟩⟩
      ⟨0, 5, 1, 0, 0, 0⟩).2 = none ∧
    (v2_process ⟨[(0, [(0, 0), (1, 0), (2, 0)])], [], [], 0, 0, none⟩
      ⟨0, 3, 0⟩).all_samples.length = 1 := by
  refine ⟨?_, ?_, ?_⟩
  · have h := (contiguous_completion ⟨[(0, [(0, 1), (2, 1), (3, 1)])], [], [], 0, 0, none⟩
      ⟨0, 5, 1⟩ v1_init ⟨0, 5, 1, 0, 0, 0⟩).1.mpr (by decide)
    rw [h]
  · exact (contiguous_completion v2_init ⟨0, 5, 1⟩
      ⟨[(0, [(0, 1), (2, 1), (3, 1)])], ⟨-1000000000000000000, none, none⟩⟩
      ⟨0, 5, 1, 0, 0, 0⟩).2.2.1.mpr (by decide)
  · have h := (contiguous_completion ⟨[(0, [(0, 0), (1, 0), (2, 0)])], [], [], 0, 0, none⟩
      ⟨0, 3, 0⟩ v1_init ⟨0, 5, 1, 0, 0, 0⟩).2.1 (by decide)
    rw [h]
    simp

/-! ### Claim theorems: line decoding (C5), clamping (C6), annealing (C9) -/

/-- C5 counterexample: the line `O,5,1,7,abc,0.0,9` has a malformed field 4
(`abc` is not an integer), so by the claim it must be discarded with the
buffer unchanged; the dashboard client parses only fields 1-3, accepts the
record, and stores it under tick 5. -/
theorem malformed_line_counterexample :
    v2_decode "O,5,1,7,abc,0.0,9" = some ⟨5, 1, 7⟩ ∧
    (v2_line_step v2_init "O,5,1,7,abc,0.0,9").tick_buffer = [(5, [(1, 7)])] ∧
    (v2_line_step v2_init "O,5,1,7,abc,0.0,9").tick_buffer ≠ v2_init.tick_buffer := by
  decide

/-- C5 (amended): the console client accepts an `O,` line only when it splits
into at least 7 fields and fields 1,2,3,4,6 parse as integers and field 5 as a
float; the dashboard accepts it whenever it has at least 7 fields and fields
1-3 parse, never reading fields 4-6. In both clients a rejected line leaves
the whole state (the tick buffer included) unchanged. -/
theorem decode_guards (line : String) (st1 : V1State) (st2 : V2State) :
    ((v1_decode line).isSome ↔
      (line.data.take 2 = ['O', ','] ∧ 7 ≤ (splitOnComma line.data).length ∧
        (pyInt ((splitOnComma line.data).getD 1 [])).isSome ∧
        (pyInt ((splitOnComma line.data).getD 2 [])).isSome ∧
        (pyInt ((splitOnComma line.data).getD 3 [])).isSome ∧
        (pyInt ((splitOnComma line.data).getD 4 [])).isSome ∧
        (pyFloat ((splitOnComma line.data).getD 5 [])).isSome ∧
        (pyInt ((splitOnComma line.data).getD 6 [])).isSome)) ∧
    ((v2_decode line).isSome ↔
      (line.data.take 2 = ['O', ','] ∧ 7 ≤ (splitOnComma line.data).length ∧
        (pyInt ((splitOnComma line.data).getD 1 [])).isSome ∧
        (pyInt ((splitOnComma line.data).getD 2 [])).isSome ∧
        (pyInt ((splitOnComma line.data).getD 3 [])).isSome)) ∧
    (v1_decode line = none → v1_line_step st1 line = (st1, none)) ∧
    (v2_decode line = none → v2_line_step st2 line = st2) := by
  refine ⟨?_, ?_, ?_, ?_⟩
  · rw [v1_decode]
    by_cases hpre : line.data.take 2 = ['O', ',']
    · rw [if_pos hpre]
      by_cases hlen : (splitOnComma line.data).length < 7
      · rw [if_pos hlen]
        constructor
        · intro habs
          simp at habs
        · rintro ⟨-, h7, -⟩
          omega
      · rw [if_neg hlen]
        have h7 : 7 ≤ (splitOnComma line.data).length := not_lt.mp hlen
        cases h1 : pyInt ((splitOnComma line.data).getD 1 []) <;>
          cases h2 : pyInt ((splitOnComma line.data).getD 2 []) <;>
            cases h3 : pyInt ((splitOnComma line.data).getD 3 []) <;>
              cases h4 : pyInt ((splitOnComma line.data).getD 4 []) <;>
                cases h5 : pyFloat ((splitOnComma line.data).getD 5 []) <;>
                  cases h6 : pyInt ((splitOnComma line.data).getD 6 []) <;>
                    simp [hpre, h7, h1, h2, h3, h4, h5, h6]
    · rw [if_neg hpre]
      simp [hpre]
  · rw [v2_decode]
    by_cases hpre : line.data.take 2 = ['O', ',']
    · rw [if_pos hpre]
      by_cases hlen : 7 ≤ (splitOnComma line.data).length
      · rw [if_pos hlen]
        cases h1 : pyInt ((splitOnComma line.data).getD 1 []) <;>
          cases h2 : pyInt ((splitOnComma line.data).getD 2 []) <;>
            cases h3 : pyInt ((splitOnComma line.data).getD 3 []) <;>
              simp [hpre, hlen, h1, h2, h3]
      · rw [if_neg hlen]
        simp [hpre, hlen]
    · rw [if_neg hpre]
      simp [hpre]
  · intro h
    rw [v1_line_step, h]
  · intro h
    rw [v2_line_step, h]

/-- Witness for C5's amended theorem at the short line `O,1,2`. -/
theorem decode_guards_witness :
    v1_line_step v1_init "O,1,2" = (v1_init, none) ∧
    v2_line_step v2_init "O,1,2" = v2_init :=
  ⟨(decode_guards "O,1,2" v1_init v2_init).2.2.1 (by decide),
   (decode_guards "O,1,2" v1_init v2_init).2.2.2 (by decide)⟩

/-- C6 counterexample: the dashboard's `on_start` sends the user-supplied batch
count and temperature to the device unclamped — count 5000 is sent even though
the claimed range is [1,2000], and temperature 2 even though the claimed range
is [0,1]. -/
theorem unclamped_counterexample :
    (v2_on_start_get 5000).k = 5000 ∧ ¬ (v2_on_start_get 5000).k ≤ 2000 ∧
    v2_on_start_t false 0 2 = 2 ∧ ¬ v2_on_start_t false 0 2 ≤ 1 := by
  decide

lemma clamp_int_spec (x lo hi : ℤ) (h : lo ≤ hi) :
    lo ≤ clamp_int x lo hi ∧ clamp_int x lo hi ≤ hi ∧
      (lo ≤ x → x ≤ hi → clamp_int x lo hi = x) := by
  refine ⟨le_max_left _ _, max_le h (min_le_left _ _), ?_⟩
  intro h1 h2
  rw [clamp_int, min_eq_right h2, max_eq_right h1]

lemma clamp_float_spec (x lo hi : ℚ) (h : lo ≤ hi) :
    lo ≤ clamp_float x lo hi ∧ clamp_float x lo hi ≤ hi ∧
      (lo ≤ x → x ≤ hi → clamp_float x lo hi = x) := by
  refine ⟨le_max_left _ _, max_le h (min_le_left _ _), ?_⟩
  intro h1 h2
  rw [clamp_float, min_eq_right h2, max_eq_right h1]

/-- C6 (amended): the console client clamps every user-supplied parameter into
its range before sending, and passes in-range values through unchanged
(T to [0,1], B to [-127,127], Kp to [0,255], M to [0,255], K to [1,2000],
stride to [1,1000], burn-in to [0,5000]); the dashboard sends the
user-supplied batch count and temperature without clamping. -/
theorem clamp_spec (t : ℚ) (b kp m k stride burn : ℤ) :
    (0 ≤ (v1_clamped_config t b kp m k stride burn).1 ∧
      (v1_clamped_config t b kp m k stride burn).1 ≤ 1 ∧
      (0 ≤ t → t ≤ 1 → (v1_clamped_config t b kp m k stride burn).1 = t)) ∧
    (-127 ≤ (v1_clamped_config t b kp m k stride burn).2.1 ∧
      (v1_clamped_config t b kp m k stride burn).2.1 ≤ 127 ∧
      (-127 ≤ b → b ≤ 127 → (v1_clamped_config t b kp m k stride burn).2.1 = b)) ∧
    (0 ≤ (v1_clamped_config t b kp m k stride burn).2.2.1 ∧
      (v1_clamped_config t b kp m k stride burn).2.2.1 ≤ 255 ∧
      (0 ≤ kp → kp ≤ 255 → (v1_clamped_config t b kp m k stride burn).2.2.1 = kp)) ∧
    (0 ≤ (v1_clamped_config t b kp m k stride burn).2.2.2.1 ∧
      (v1_clamped_config t b kp m k stride burn).2.2.2.1 ≤ 255 ∧
      (0 ≤ m → m ≤ 255 → (v1_clamped_config t b kp m k stride burn).2.2.2.1 = m)) ∧
    (1 ≤ (v1_clamped_config t b kp m k stride burn).2.2.2.2.1 ∧
      (v1_clamped_config t b kp m k stride burn).2.2.2.2.1 ≤ 2000 ∧
      (1 ≤ k → k ≤ 2000 → (v1_clamped_config t b kp m k stride burn).2.2.2.2.1 = k)) ∧
    (1 ≤ (v1_clamped_config t b kp m k stride burn).2.2.2.2.2.1 ∧
      (v1_clamped_config t b kp m k stride burn).2.2.2.2.2.1 ≤ 1000 ∧
      (1 ≤ stride → stride ≤ 1000 →
        (v1_clamped_config t b kp m k stride burn).2.2.2.2.2.1 = stride)) ∧
    (0 ≤ (v1_clamped_config t b kp m k stride burn).2.2.2.2.2.2 ∧
      (v1_clamped_config t b kp m k stride burn).2.2.2.2.2.2 ≤ 5000 ∧
      (0 ≤ burn → burn ≤ 5000 →
        (v1_clamped_config t b kp m k stride burn).2.2.2.2.2.2 = burn)) ∧
    (∀ kk : ℤ, (v2_on_start_get kk).k = kk) ∧
    (∀ ts tv : ℚ, v2_on_start_t true ts tv = ts ∧ v2_on_start_t false ts tv = tv) := by
  refine ⟨clamp_float_spec t 0 1 (by norm_num),
    clamp_int_spec b (-127) 127 (by norm_num),
    clamp_int_spec kp 0 255 (by norm_num),
    clamp_int_spec m 0 255 (by norm_num),
    clamp_int_spec k 1 2000 (by norm_num),
    clamp_int_spec stride 1 1000 (by norm_num),
    clamp_int_spec burn 0 5000 (by norm_num),
    fun kk => rfl,
    fun ts tv => ⟨rfl, rfl⟩⟩

/-- Witness for C6's amended theorem: in-range inputs pass through unchanged. -/
theorem clamp_spec_witness :
    (v1_clamped_config 0 5 60 1 300 1 20).1 = 0 ∧
    (v1_clamped_config 0 5 60 1 300 1 20).2.1 = 5 ∧
    (v1_clamped_config 0 5 60 1 300 1 20).2.2.2.2.1 = 300 ∧
    (v2_on_start_get 300).k = 300 := by
  have h := clamp_spec 0 5 60 1 300 1 20
  exact ⟨h.1.2.2 (by decide) (by decide),
    h.2.1.2.2 (by decide) (by decide),
    h.2.2.2.2.1.2.2 (by decide) (by decide),
    h.2.2.2.2.2.2.2.1 300⟩

/-- C9: with annealing active and a positive requested batch count, the
controller's temperature is the linear interpolation
`t_start + (t_end - t_start) * (sample_count / batch_k)`; a `@PARAM` command
is sent exactly when it differs from `last_sent_t` by at least 0.01, carrying
the fixed bias, coupling and mode, and `last_sent_t` is updated to the value
just sent (otherwise kept). -/
theorem anneal_spec (ts te lt : ℚ) (sc : ℕ) (bk : ℤ) (hbk : 0 < bk) :
    (anneal_step true ts te sc bk lt).1
      = (if 1 / 100 ≤ |ts + (te - ts) * ((sc : ℚ) / (bk : ℚ)) - lt|
          then some ⟨ts + (te - ts) * ((sc : ℚ) / (bk : ℚ)), PARAM_B, PARAM_KP, PARAM_M⟩
          else none) ∧
    (anneal_step true ts te sc bk lt).2
      = (if 1 / 100 ≤ |ts + (te - ts) * ((sc : ℚ) / (bk : ℚ)) - lt|
          then ts + (te - ts) * ((sc : ℚ) / (bk : ℚ)) else lt) := by
  simp only [anneal_step, if_pos hbk, if_true]
  constructor <;> split <;> rfl

/-- Witness for C9 at `t_start = t_end = 0`, one requested sample, none yet
observed, `last_sent_t = 1`: the temperature 0 differs by 1 ≥ 0.01, so a
command is sent and `last_sent_t` becomes 0. -/
theorem anneal_spec_witness :
    (anneal_step true 0 0 0 1 1).1 = some ⟨0, 5, 60, 1⟩ ∧
    (anneal_step true 0 0 0 1 1).2 = 0 := by
  have h := anneal_spec 0 0 1 0 1 (by decide)
  rw [h.1, h.2]
  norm_num [PARAM_B, PARAM_KP, PARAM_M]

end Quantum32
